import Mathlib

set_option maxRecDepth 8000

/-
Shallow embedding of the crlib text-handling core (src/inc/crlib/string.h).

Strings are modelled as lists of byte values (`List Nat`, each element the
unsigned value of a `char`).  `size_t` is modelled as `Nat`, with the
`InvalidIndex` sentinel kept at its concrete 64-bit value `2^64 - 1`.
Reading a character through a pointer is modelled by `strGet`, which returns
0 past the end of the list: this reflects the source's convention that every
backing buffer is null-terminated at its end (reading `chars_[length]` yields
the terminator).

Loops are translated one-for-one.  `for`-loops whose counter moves by exactly
one step per iteration are translated with an explicit remaining-iteration
counter that mirrors the loop bound; `while`-loops whose progress per
iteration varies carry a fuel argument, and the wrappers pass fuel that
provably dominates the iteration count (so the wrapper equals the source
loop on all inputs on which the source loop terminates).
-/

namespace Cr

/-- Model of `StringRef::InvalidIndex = static_cast<size_t>(-1)`. -/
def InvalidIndex : Nat := 18446744073709551615

/-- Read a byte through a pointer: `chars_[i]`.  Out-of-range reads return the
terminator byte 0 (the source guarantees a terminator at the end of every
backing buffer). -/
def strGet (s : List Nat) (i : Nat) : Nat := s.getD i 0

/-- Inner loop of `StringRef::find(StringRef, size_t)`:
`for (; index < pattern.length () && chars_[index]; ++index) { if (chars_[i + index] != pattern[index]) break; }`.
Note that the loop condition reads `chars_[index]` (the haystack at `index`),
exactly as the source does.  `rem = pattern.length - index` counts the
remaining iterations of the `index < pattern.length ()` bound. -/
def findInnerGo (s pattern : List Nat) (i : Nat) : Nat → Nat → Nat
  | index, 0 => index
  | index, rem + 1 =>
    if strGet s index ≠ 0 then
      if strGet s (i + index) ≠ strGet pattern index then index
      else findInnerGo s pattern i (index + 1) rem
    else index

/-- The inner loop started at `index = 0`. -/
def findInner (s pattern : List Nat) (i : Nat) : Nat :=
  findInnerGo s pattern i 0 pattern.length

/-- Outer loop of `StringRef::find(StringRef, size_t)`:
`for (size_t i = start; i <= length_ - pattern.length (); ++i)`, with the
match test `if (!pattern[index]) return i;`.
`rem = length - pattern.length + 1 - i` counts the remaining iterations. -/
def findLoopGo (s pattern : List Nat) : Nat → Nat → Nat
  | _, 0 => InvalidIndex
  | i, rem + 1 =>
    if strGet pattern (findInner s pattern i) = 0 then i
    else findLoopGo s pattern (i + 1) rem

/-- Model of `StringRef::find(StringRef pattern, size_t start)`. -/
def find (s pattern : List Nat) (start : Nat) : Nat :=
  if pattern.length > s.length ∨ start > s.length then InvalidIndex
  else findLoopGo s pattern start (s.length - pattern.length + 1 - start)

/-- Model of `StringRef::substr(size_t start, size_t count)`. -/
def substr (s : List Nat) (start count : Nat) : List Nat :=
  let start := min start s.length
  let count := if count = InvalidIndex then s.length else count
  ((s.drop start).take (min count (s.length - start)))

/-- Loop of `StringRef::split(StringRef delim)`:
`while ((pos = find (delim, pos)) != InvalidIndex) { tokens.push (substr (prev, pos - prev)); prev = ++pos; }
 tokens.push (substr (prev, pos - prev));`
The source keeps `prev == pos` at every loop head (after `prev = ++pos` both
hold the found index plus one); both are carried explicitly.  The loop's scan
position strictly increases, bounded by `s.length + 1`, so the wrapper's fuel
`s.length + 2` always dominates the iteration count. -/
def splitGo (s delim : List Nat) : Nat → Nat → Nat → List (List Nat)
  | prev, pos, 0 => [substr s prev (pos - prev)]
  | prev, pos, fuel + 1 =>
    if find s delim pos = InvalidIndex then
      [substr s prev (InvalidIndex - prev)]
    else
      substr s prev (find s delim pos - prev) ::
        splitGo s delim (find s delim pos + 1) (find s delim pos + 1) fuel

/-- Model of `StringRef::split(StringRef delim)`. -/
def split (s delim : List Nat) : List (List Nat) :=
  splitGo s delim 0 0 (s.length + 2)

/-- Inner loop of `StringRef::rfind(StringRef)`:
`for (size_t j = pattern.length () - 1; j > 0; j--) { if (chars_[i + i] != pattern[j]) { match = false; break; } }`
The source compares `chars_[i + i]` (sic) against `pattern[j]`, and never
tests `j = 0`.  The argument is the current value of `j`. -/
def rfindInnerGo (s pattern : List Nat) (i : Nat) : Nat → Bool
  | 0 => true
  | j + 1 =>
    if strGet s (i + i) ≠ strGet pattern (j + 1) then false
    else rfindInnerGo s pattern i j

/-- Outer loop of `StringRef::rfind(StringRef)`:
`for (size_t i = length_ - 1; i >= pattern.length (); i--)`.  The argument is
the current value of `i`. -/
def rfindLoopGo (s pattern : List Nat) : Nat → Nat
  | 0 =>
    if pattern.length = 0 then
      if rfindInnerGo s pattern 0 (pattern.length - 1) then 0 else InvalidIndex
    else InvalidIndex
  | i + 1 =>
    if pattern.length ≤ i + 1 then
      if rfindInnerGo s pattern (i + 1) (pattern.length - 1) then i + 1
      else rfindLoopGo s pattern i
    else InvalidIndex

/-- Model of `StringRef::rfind(StringRef pattern)`. -/
def rfind (s pattern : List Nat) : Nat :=
  if pattern.length > s.length then InvalidIndex
  else rfindLoopGo s pattern (s.length - 1)

/-- A full naive match of `pattern` inside `s` at position `i` (the semantics
the specification assigns to the searches). -/
def matchAt (s pattern : List Nat) (i : Nat) : Prop :=
  ∀ k, k < pattern.length → strGet s (i + k) = strGet pattern k

/-- Model of `String::join(sequence, delim, start)`: empty sequence yields `""`,
a one-element sequence yields its element, otherwise the loop
`for (index = start; ...) result += (index != start) ? delim + s[index] : s[index]`. -/
def join (sequence : List (List Nat)) (delim : List Nat) (start : Nat) : List Nat :=
  if sequence.isEmpty then []
  else if sequence.length = 1 then sequence.getD 0 []
  else
    match sequence.drop start with
    | [] => []
    | x :: rest => rest.foldl (fun result t => result ++ delim ++ t) x

/-- The owned `String`: `UniquePtr<char[]> chars_; size_t length_; size_t capacity_`.
`buffer` is the allocated array (empty list = unallocated null pointer). -/
structure CrStr where
  buffer : List Nat
  length : Nat
  capacity : Nat
deriving DecidableEq

/-- The default-constructed `String ()`. -/
def emptyString : CrStr := ⟨[], 0, 0⟩

/-- The live content of a `String`: what `str ()` views, the first `length_`
bytes of the buffer. -/
def contentOf (s : CrStr) : List Nat := s.buffer.take s.length

/-- The `while (length_ + length > capacity) { capacity += capacity * 2 / 3; }`
loop of `String::getGrowFactor`.  Each iteration adds at least one as long as
`capacity ≥ 2`; reachable strings always enter with `capacity ≥ 12` or the
caller's current capacity (≥ 20 once allocated), so the wrapper's fuel
dominates the iteration count.  (For `capacity ≤ 1` the source loop would
never terminate; the model then returns the current capacity.) -/
def growLoopGo (needed : Nat) : Nat → Nat → Nat
  | 0, capacity => capacity
  | fuel + 1, capacity =>
    if needed > capacity then growLoopGo needed fuel (capacity + capacity * 2 / 3)
    else capacity

/-- Model of `String::getGrowFactor(const size_t length)`. -/
def getGrowFactor (s : CrStr) (length : Nat) : Nat :=
  let capacity := if s.capacity ≠ 0 then s.capacity else max 12 (length + 1)
  let capacity := growLoopGo (s.length + length) (s.length + length + 1) capacity
  capacity + (if length < 4 then 8 else length)

/-- Model of `memcpy`-style write of `bytes` into `buf` starting at `start` (writes
that fall outside the allocation are dropped, as `List.set` is). -/
def memwrite (buf : List Nat) (start : Nat) (bytes : List Nat) : List Nat :=
  match bytes with
  | [] => buf
  | b :: rest => memwrite (buf.set start b) (start + 1) rest

/-- Model of `String::resize(const size_t amount)`.  Modelled from the spec: the
allocator `makeUnique<char[]>` (crlib/memory.h, not part of the given
sources) is taken to value-initialize, i.e. return a zero-filled array;
`resize` copies only the first `length_` bytes into it. -/
def resize (s : CrStr) (amount : Nat) : CrStr :=
  if s.length + amount < s.capacity then s
  else
    let factor := getGrowFactor s amount + s.length
    if s.buffer ≠ [] then
      { buffer := s.buffer.take s.length ++ List.replicate (factor - s.length) 0
        length := s.length
        capacity := factor }
    else
      { buffer := (List.replicate factor 0).set 0 0
        length := s.length
        capacity := factor }

/-- Model of `String::assign(const char *str, size_t length)` with a non-null source;
`bytes` is the `length` source bytes determined by `calcLength` (the explicit
count, or the source scanned up to its terminator). -/
def assign (s : CrStr) (bytes : List Nat) : CrStr :=
  let s1 := resize s bytes.length
  let buf := memwrite s1.buffer 0 bytes
  { buffer := buf.set bytes.length 0
    length := bytes.length
    capacity := s1.capacity }

/-- Model of `String::append(const char *str, size_t length)` with a non-null source. -/
def append (s : CrStr) (bytes : List Nat) : CrStr :=
  let s1 := resize s bytes.length
  let buf := memwrite s1.buffer s1.length bytes
  { buffer := buf.set (s1.length + bytes.length) 0
    length := s1.length + bytes.length
    capacity := s1.capacity }

/-- Shift loop of `String::insert`:
`for (size_t i = length_; i > index; --i) { at (i + str.length () - 1) = at (i - 1); }`
The argument is the current value of `i`. -/
def shiftLoopGo (strLen index : Nat) : Nat → List Nat → List Nat
  | 0, buf => buf
  | i + 1, buf =>
    if i + 1 > index then
      shiftLoopGo strLen index i (buf.set (i + 1 + strLen - 1) (strGet buf i))
    else buf

/-- Model of `String::insert(size_t index, StringRef str)`. -/
def insert (s : CrStr) (index : Nat) (str : List Nat) : Bool × CrStr :=
  if str = [] then (false, s)
  else if index ≥ s.length then (true, append s str)
  else
    let s1 := resize s (s.length + str.length)
    let buf := shiftLoopGo str.length index s1.length s1.buffer
    let buf := memwrite buf index str
    (true, { buffer := buf, length := s1.length + str.length, capacity := s1.capacity })

/-- Shift-left loop of `String::erase`:
`for (size_t i = index; i < length_; ++i) { at (i) = at (i + count); }` where
`length_` has already been decreased.  `rem = length_ - i` counts the
remaining iterations. -/
def eraseLoopGo (count : Nat) : List Nat → Nat → Nat → List Nat
  | buf, _, 0 => buf
  | buf, i, rem + 1 => eraseLoopGo count (buf.set i (strGet buf (i + count))) (i + 1) rem

/-- Model of `String::erase(size_t index, size_t count)`. -/
def erase (s : CrStr) (index count : Nat) : Bool × CrStr :=
  if index + count > s.length then (false, s)
  else
    (true, { buffer := eraseLoopGo count s.buffer index (s.length - count - index)
             length := s.length - count
             capacity := s.capacity })

/-- Loop of `String::replace(StringRef needle, StringRef to)`:
`while (pos < length ()) { pos = find (needle, pos); if (pos == InvalidIndex) break;
 erase (pos, needle.length ()); insert (pos, to); pos += target.length (); ++replaced; }`
Fueled; `none` means the fuel ran out before the loop exited.  Each iteration
shrinks `length () - pos` by at least one (the scan position advances past the
inserted text), so the wrapper's fuel `length + 1` always suffices — that is
the content of the termination theorem below. -/
def replaceGo (needle target : List Nat) : CrStr → Nat → Nat → Nat → Option (Nat × CrStr)
  | _, _, _, 0 => none
  | s, pos, replaced, fuel + 1 =>
    if pos < s.length then
      if find (contentOf s) needle pos = InvalidIndex then some (replaced, s)
      else
        replaceGo needle target
          (insert (erase s (find (contentOf s) needle pos) needle.length).2
            (find (contentOf s) needle pos) target).2
          (find (contentOf s) needle pos + target.length) (replaced + 1) fuel
    else some (replaced, s)

/-- Model of `String::replace(StringRef needle, StringRef to)`. -/
def replace (s : CrStr) (needle target : List Nat) : Option (Nat × CrStr) :=
  if needle = [] ∨ target = [] then some (0, s)
  else replaceGo needle target s 0 0 (s.length + 1)

/-- Model of `strlen`: scan until the first zero byte (the model stops at the end of
the allocation, where the terminator convention puts a zero anyway). -/
def cstrLen : List Nat → Nat
  | [] => 0
  | b :: rest => if b = 0 then 0 else cstrLen rest + 1

/-- The copy constructor `String (const String &str) { assign (str.chars ()); }`:
`calcLength` receives no explicit count, so the source length is recomputed
by `strlen` on the raw buffer, stopping at the first zero byte. -/
def copyString (s : CrStr) : CrStr :=
  assign emptyString (s.buffer.take (cstrLen s.buffer))

/-- One row of the six-row UTF-8 length table (`Utf8Tools::Utf8Table`). -/
structure Utf8Table where
  cmask : Nat
  cval : Nat
  shift : Nat
  lmask : Nat
  lval : Nat

/-- Model of `Utf8Tools::buildTable ()`: the six rows describing 1..6-byte sequences. -/
def utfTable : List Utf8Table :=
  [ ⟨0x80, 0x00, 0 * 6, 0x7f, 0⟩
  , ⟨0xe0, 0xc0, 1 * 6, 0x7ff, 0x80⟩
  , ⟨0xf0, 0xe0, 2 * 6, 0xffff, 0x800⟩
  , ⟨0xf8, 0xf0, 3 * 6, 0x1fffff, 0x10000⟩
  , ⟨0xfc, 0xf8, 4 * 6, 0x3ffffff, 0x200000⟩
  , ⟨0xfe, 0xfc, 5 * 6, 0x7fffffff, 0x4000000⟩ ]

/-- Loop of `Utf8Tools::multiByteToWideChar(wchar_t *wide, const char *mbs)`:
for each table row, test the (fixed) lead byte against the row mask; on a
match, mask the accumulator, reject values below the row minimum (overlong
encodings), and return the accumulated code point with the row number as the
consumed byte count; otherwise consume one continuation byte (whose top two
bits must be `10`) into the accumulator.  Bytes are modelled unsigned; the
final `lval &= table.lmask` makes the result agree with the source for either
signedness of `char`.  `none` models the `-1` failure return. -/
def mbGo (mbs : List Nat) (ch : Nat) : List Utf8Table → Nat → Nat → Nat → Option (Nat × Nat)
  | [], _, _, _ => none
  | t :: rest, len, pos, lval =>
    if ch &&& t.cmask = t.cval then
      if lval &&& t.lmask < t.lval then none
      else some (lval &&& t.lmask, len + 1)
    else
      if ((strGet mbs (pos + 1)) ^^^ 0x80) &&& 0xff &&& 0xc0 ≠ 0 then none
      else
        mbGo mbs ch rest (len + 1) (pos + 1)
          ((lval <<< 6) ||| (((strGet mbs (pos + 1)) ^^^ 0x80) &&& 0xff))

/-- Model of `Utf8Tools::multiByteToWideChar`: decode one UTF-8 sequence from the
front of `mbs`, returning the code point and the number of bytes consumed. -/
def multiByteToWideChar (mbs : List Nat) : Option (Nat × Nat) :=
  mbGo mbs (strGet mbs 0) utfTable 0 0 (strGet mbs 0)

/-- Model of `Utf8Tools::upperTable_`: the 706-entry lower-to-upper code-point map,
sorted ascending by its first component.  Entries are `Int` because the
source stores `int32_t` and compares against a (signed) `wchar_t`. -/
def upperTable : List (Int × Int) := [
  (0x0061, 0x0041), (0x0062, 0x0042), (0x0063, 0x0043), (0x0064, 0x0044), (0x0065, 0x0045), (0x0066, 0x0046), (0x0067, 0x0047), (0x0068, 0x0048),
  (0x0069, 0x0049), (0x006a, 0x004a), (0x006b, 0x004b), (0x006c, 0x004c), (0x006d, 0x004d), (0x006e, 0x004e), (0x006f, 0x004f), (0x0070, 0x0050),
  (0x0071, 0x0051), (0x0072, 0x0052), (0x0073, 0x0053), (0x0074, 0x0054), (0x0075, 0x0055), (0x0076, 0x0056), (0x0077, 0x0057), (0x0078, 0x0058),
  (0x0079, 0x0059), (0x007a, 0x005a), (0x00e0, 0x00c0), (0x00e1, 0x00c1), (0x00e2, 0x00c2), (0x00e3, 0x00c3), (0x00e4, 0x00c4), (0x00e5, 0x00c5),
  (0x00e6, 0x00c6), (0x00e7, 0x00c7), (0x00e8, 0x00c8), (0x00e9, 0x00c9), (0x00ea, 0x00ca), (0x00eb, 0x00cb), (0x00ec, 0x00cc), (0x00ed, 0x00cd),
  (0x00ee, 0x00ce), (0x00ef, 0x00cf), (0x00f0, 0x00d0), (0x00f1, 0x00d1), (0x00f2, 0x00d2), (0x00f3, 0x00d3), (0x00f4, 0x00d4), (0x00f5, 0x00d5),
  (0x00f6, 0x00d6), (0x00f8, 0x00d8), (0x00f9, 0x00d9), (0x00fa, 0x00da), (0x00fb, 0x00db), (0x00fc, 0x00dc), (0x00fd, 0x00dd), (0x00fe, 0x00de),
  (0x00ff, 0x0178), (0x0101, 0x0100), (0x0103, 0x0102), (0x0105, 0x0104), (0x0107, 0x0106), (0x0109, 0x0108), (0x010b, 0x010a), (0x010d, 0x010c),
  (0x010f, 0x010e), (0x0111, 0x0110), (0x0113, 0x0112), (0x0115, 0x0114), (0x0117, 0x0116), (0x0119, 0x0118), (0x011b, 0x011a), (0x011d, 0x011c),
  (0x011f, 0x011e), (0x0121, 0x0120), (0x0123, 0x0122), (0x0125, 0x0124), (0x0127, 0x0126), (0x0129, 0x0128), (0x012b, 0x012a), (0x012d, 0x012c),
  (0x012f, 0x012e), (0x0131, 0x0049), (0x0133, 0x0132), (0x0135, 0x0134), (0x0137, 0x0136), (0x013a, 0x0139), (0x013c, 0x013b), (0x013e, 0x013d),
  (0x0140, 0x013f), (0x0142, 0x0141), (0x0144, 0x0143), (0x0146, 0x0145), (0x0148, 0x0147), (0x014b, 0x014a), (0x014d, 0x014c), (0x014f, 0x014e),
  (0x0151, 0x0150), (0x0153, 0x0152), (0x0155, 0x0154), (0x0157, 0x0156), (0x0159, 0x0158), (0x015b, 0x015a), (0x015d, 0x015c), (0x015f, 0x015e),
  (0x0161, 0x0160), (0x0163, 0x0162), (0x0165, 0x0164), (0x0167, 0x0166), (0x0169, 0x0168), (0x016b, 0x016a), (0x016d, 0x016c), (0x016f, 0x016e),
  (0x0171, 0x0170), (0x0173, 0x0172), (0x0175, 0x0174), (0x0177, 0x0176), (0x017a, 0x0179), (0x017c, 0x017b), (0x017e, 0x017d), (0x0183, 0x0182),
  (0x0185, 0x0184), (0x0188, 0x0187), (0x018c, 0x018b), (0x0192, 0x0191), (0x0195, 0x01f6), (0x0199, 0x0198), (0x019e, 0x0220), (0x01a1, 0x01a0),
  (0x01a3, 0x01a2), (0x01a5, 0x01a4), (0x01a8, 0x01a7), (0x01ad, 0x01ac), (0x01b0, 0x01af), (0x01b4, 0x01b3), (0x01b6, 0x01b5), (0x01b9, 0x01b8),
  (0x01bd, 0x01bc), (0x01bf, 0x01f7), (0x01c6, 0x01c4), (0x01c9, 0x01c7), (0x01cc, 0x01ca), (0x01ce, 0x01cd), (0x01d0, 0x01cf), (0x01d2, 0x01d1),
  (0x01d4, 0x01d3), (0x01d6, 0x01d5), (0x01d8, 0x01d7), (0x01da, 0x01d9), (0x01dc, 0x01db), (0x01dd, 0x018e), (0x01df, 0x01de), (0x01e1, 0x01e0),
  (0x01e3, 0x01e2), (0x01e5, 0x01e4), (0x01e7, 0x01e6), (0x01e9, 0x01e8), (0x01eb, 0x01ea), (0x01ed, 0x01ec), (0x01ef, 0x01ee), (0x01f3, 0x01f1),
  (0x01f5, 0x01f4), (0x01f9, 0x01f8), (0x01fb, 0x01fa), (0x01fd, 0x01fc), (0x01ff, 0x01fe), (0x0201, 0x0200), (0x0203, 0x0202), (0x0205, 0x0204),
  (0x0207, 0x0206), (0x0209, 0x0208), (0x020b, 0x020a), (0x020d, 0x020c), (0x020f, 0x020e), (0x0211, 0x0210), (0x0213, 0x0212), (0x0215, 0x0214),
  (0x0217, 0x0216), (0x0219, 0x0218), (0x021b, 0x021a), (0x021d, 0x021c), (0x021f, 0x021e), (0x0223, 0x0222), (0x0225, 0x0224), (0x0227, 0x0226),
  (0x0229, 0x0228), (0x022b, 0x022a), (0x022d, 0x022c), (0x022f, 0x022e), (0x0231, 0x0230), (0x0233, 0x0232), (0x0253, 0x0181), (0x0254, 0x0186),
  (0x0256, 0x0189), (0x0257, 0x018a), (0x0259, 0x018f), (0x025b, 0x0190), (0x0260, 0x0193), (0x0263, 0x0194), (0x0268, 0x0197), (0x0269, 0x0196),
  (0x026f, 0x019c), (0x0272, 0x019d), (0x0275, 0x019f), (0x0280, 0x01a6), (0x0283, 0x01a9), (0x0288, 0x01ae), (0x028a, 0x01b1), (0x028b, 0x01b2),
  (0x0292, 0x01b7), (0x03ac, 0x0386), (0x03ad, 0x0388), (0x03ae, 0x0389), (0x03af, 0x038a), (0x03b1, 0x0391), (0x03b2, 0x0392), (0x03b3, 0x0393),
  (0x03b4, 0x0394), (0x03b5, 0x0395), (0x03b6, 0x0396), (0x03b7, 0x0397), (0x03b8, 0x0398), (0x03b9, 0x0345), (0x03ba, 0x039a), (0x03bb, 0x039b),
  (0x03bc, 0x00b5), (0x03bd, 0x039d), (0x03be, 0x039e), (0x03bf, 0x039f), (0x03c0, 0x03a0), (0x03c1, 0x03a1), (0x03c3, 0x03a3), (0x03c4, 0x03a4),
  (0x03c5, 0x03a5), (0x03c6, 0x03a6), (0x03c7, 0x03a7), (0x03c8, 0x03a8), (0x03c9, 0x03a9), (0x03ca, 0x03aa), (0x03cb, 0x03ab), (0x03cc, 0x038c),
  (0x03cd, 0x038e), (0x03ce, 0x038f), (0x03d9, 0x03d8), (0x03db, 0x03da), (0x03dd, 0x03dc), (0x03df, 0x03de), (0x03e1, 0x03e0), (0x03e3, 0x03e2),
  (0x03e5, 0x03e4), (0x03e7, 0x03e6), (0x03e9, 0x03e8), (0x03eb, 0x03ea), (0x03ed, 0x03ec), (0x03ef, 0x03ee), (0x03f2, 0x03f9), (0x03f8, 0x03f7),
  (0x03fb, 0x03fa), (0x0430, 0x0410), (0x0431, 0x0411), (0x0432, 0x0412), (0x0433, 0x0413), (0x0434, 0x0414), (0x0435, 0x0415), (0x0436, 0x0416),
  (0x0437, 0x0417), (0x0438, 0x0418), (0x0439, 0x0419), (0x043a, 0x041a), (0x043b, 0x041b), (0x043c, 0x041c), (0x043d, 0x041d), (0x043e, 0x041e),
  (0x043f, 0x041f), (0x0440, 0x0420), (0x0441, 0x0421), (0x0442, 0x0422), (0x0443, 0x0423), (0x0444, 0x0424), (0x0445, 0x0425), (0x0446, 0x0426),
  (0x0447, 0x0427), (0x0448, 0x0428), (0x0449, 0x0429), (0x044a, 0x042a), (0x044b, 0x042b), (0x044c, 0x042c), (0x044d, 0x042d), (0x044e, 0x042e),
  (0x044f, 0x042f), (0x0450, 0x0400), (0x0451, 0x0401), (0x0452, 0x0402), (0x0453, 0x0403), (0x0454, 0x0404), (0x0455, 0x0405), (0x0456, 0x0406),
  (0x0457, 0x0407), (0x0458, 0x0408), (0x0459, 0x0409), (0x045a, 0x040a), (0x045b, 0x040b), (0x045c, 0x040c), (0x045d, 0x040d), (0x045e, 0x040e),
  (0x045f, 0x040f), (0x0461, 0x0460), (0x0463, 0x0462), (0x0465, 0x0464), (0x0467, 0x0466), (0x0469, 0x0468), (0x046b, 0x046a), (0x046d, 0x046c),
  (0x046f, 0x046e), (0x0471, 0x0470), (0x0473, 0x0472), (0x0475, 0x0474), (0x0477, 0x0476), (0x0479, 0x0478), (0x047b, 0x047a), (0x047d, 0x047c),
  (0x047f, 0x047e), (0x0481, 0x0480), (0x048b, 0x048a), (0x048d, 0x048c), (0x048f, 0x048e), (0x0491, 0x0490), (0x0493, 0x0492), (0x0495, 0x0494),
  (0x0497, 0x0496), (0x0499, 0x0498), (0x049b, 0x049a), (0x049d, 0x049c), (0x049f, 0x049e), (0x04a1, 0x04a0), (0x04a3, 0x04a2), (0x04a5, 0x04a4),
  (0x04a7, 0x04a6), (0x04a9, 0x04a8), (0x04ab, 0x04aa), (0x04ad, 0x04ac), (0x04af, 0x04ae), (0x04b1, 0x04b0), (0x04b3, 0x04b2), (0x04b5, 0x04b4),
  (0x04b7, 0x04b6), (0x04b9, 0x04b8), (0x04bb, 0x04ba), (0x04bd, 0x04bc), (0x04bf, 0x04be), (0x04c2, 0x04c1), (0x04c4, 0x04c3), (0x04c6, 0x04c5),
  (0x04c8, 0x04c7), (0x04ca, 0x04c9), (0x04cc, 0x04cb), (0x04ce, 0x04cd), (0x04d1, 0x04d0), (0x04d3, 0x04d2), (0x04d5, 0x04d4), (0x04d7, 0x04d6),
  (0x04d9, 0x04d8), (0x04db, 0x04da), (0x04dd, 0x04dc), (0x04df, 0x04de), (0x04e1, 0x04e0), (0x04e3, 0x04e2), (0x04e5, 0x04e4), (0x04e7, 0x04e6),
  (0x04e9, 0x04e8), (0x04eb, 0x04ea), (0x04ed, 0x04ec), (0x04ef, 0x04ee), (0x04f1, 0x04f0), (0x04f3, 0x04f2), (0x04f5, 0x04f4), (0x04f9, 0x04f8),
  (0x0501, 0x0500), (0x0503, 0x0502), (0x0505, 0x0504), (0x0507, 0x0506), (0x0509, 0x0508), (0x050b, 0x050a), (0x050d, 0x050c), (0x050f, 0x050e),
  (0x0561, 0x0531), (0x0562, 0x0532), (0x0563, 0x0533), (0x0564, 0x0534), (0x0565, 0x0535), (0x0566, 0x0536), (0x0567, 0x0537), (0x0568, 0x0538),
  (0x0569, 0x0539), (0x056a, 0x053a), (0x056b, 0x053b), (0x056c, 0x053c), (0x056d, 0x053d), (0x056e, 0x053e), (0x056f, 0x053f), (0x0570, 0x0540),
  (0x0571, 0x0541), (0x0572, 0x0542), (0x0573, 0x0543), (0x0574, 0x0544), (0x0575, 0x0545), (0x0576, 0x0546), (0x0577, 0x0547), (0x0578, 0x0548),
  (0x0579, 0x0549), (0x057a, 0x054a), (0x057b, 0x054b), (0x057c, 0x054c), (0x057d, 0x054d), (0x057e, 0x054e), (0x057f, 0x054f), (0x0580, 0x0550),
  (0x0581, 0x0551), (0x0582, 0x0552), (0x0583, 0x0553), (0x0584, 0x0554), (0x0585, 0x0555), (0x0586, 0x0556), (0x1e01, 0x1e00), (0x1e03, 0x1e02),
  (0x1e05, 0x1e04), (0x1e07, 0x1e06), (0x1e09, 0x1e08), (0x1e0b, 0x1e0a), (0x1e0d, 0x1e0c), (0x1e0f, 0x1e0e), (0x1e11, 0x1e10), (0x1e13, 0x1e12),
  (0x1e15, 0x1e14), (0x1e17, 0x1e16), (0x1e19, 0x1e18), (0x1e1b, 0x1e1a), (0x1e1d, 0x1e1c), (0x1e1f, 0x1e1e), (0x1e21, 0x1e20), (0x1e23, 0x1e22),
  (0x1e25, 0x1e24), (0x1e27, 0x1e26), (0x1e29, 0x1e28), (0x1e2b, 0x1e2a), (0x1e2d, 0x1e2c), (0x1e2f, 0x1e2e), (0x1e31, 0x1e30), (0x1e33, 0x1e32),
  (0x1e35, 0x1e34), (0x1e37, 0x1e36), (0x1e39, 0x1e38), (0x1e3b, 0x1e3a), (0x1e3d, 0x1e3c), (0x1e3f, 0x1e3e), (0x1e41, 0x1e40), (0x1e43, 0x1e42),
  (0x1e45, 0x1e44), (0x1e47, 0x1e46), (0x1e49, 0x1e48), (0x1e4b, 0x1e4a), (0x1e4d, 0x1e4c), (0x1e4f, 0x1e4e), (0x1e51, 0x1e50), (0x1e53, 0x1e52),
  (0x1e55, 0x1e54), (0x1e57, 0x1e56), (0x1e59, 0x1e58), (0x1e5b, 0x1e5a), (0x1e5d, 0x1e5c), (0x1e5f, 0x1e5e), (0x1e61, 0x1e60), (0x1e63, 0x1e62),
  (0x1e65, 0x1e64), (0x1e67, 0x1e66), (0x1e69, 0x1e68), (0x1e6b, 0x1e6a), (0x1e6d, 0x1e6c), (0x1e6f, 0x1e6e), (0x1e71, 0x1e70), (0x1e73, 0x1e72),
  (0x1e75, 0x1e74), (0x1e77, 0x1e76), (0x1e79, 0x1e78), (0x1e7b, 0x1e7a), (0x1e7d, 0x1e7c), (0x1e7f, 0x1e7e), (0x1e81, 0x1e80), (0x1e83, 0x1e82),
  (0x1e85, 0x1e84), (0x1e87, 0x1e86), (0x1e89, 0x1e88), (0x1e8b, 0x1e8a), (0x1e8d, 0x1e8c), (0x1e8f, 0x1e8e), (0x1e91, 0x1e90), (0x1e93, 0x1e92),
  (0x1e95, 0x1e94), (0x1ea1, 0x1ea0), (0x1ea3, 0x1ea2), (0x1ea5, 0x1ea4), (0x1ea7, 0x1ea6), (0x1ea9, 0x1ea8), (0x1eab, 0x1eaa), (0x1ead, 0x1eac),
  (0x1eaf, 0x1eae), (0x1eb1, 0x1eb0), (0x1eb3, 0x1eb2), (0x1eb5, 0x1eb4), (0x1eb7, 0x1eb6), (0x1eb9, 0x1eb8), (0x1ebb, 0x1eba), (0x1ebd, 0x1ebc),
  (0x1ebf, 0x1ebe), (0x1ec1, 0x1ec0), (0x1ec3, 0x1ec2), (0x1ec5, 0x1ec4), (0x1ec7, 0x1ec6), (0x1ec9, 0x1ec8), (0x1ecb, 0x1eca), (0x1ecd, 0x1ecc),
  (0x1ecf, 0x1ece), (0x1ed1, 0x1ed0), (0x1ed3, 0x1ed2), (0x1ed5, 0x1ed4), (0x1ed7, 0x1ed6), (0x1ed9, 0x1ed8), (0x1edb, 0x1eda), (0x1edd, 0x1edc),
  (0x1edf, 0x1ede), (0x1ee1, 0x1ee0), (0x1ee3, 0x1ee2), (0x1ee5, 0x1ee4), (0x1ee7, 0x1ee6), (0x1ee9, 0x1ee8), (0x1eeb, 0x1eea), (0x1eed, 0x1eec),
  (0x1eef, 0x1eee), (0x1ef1, 0x1ef0), (0x1ef3, 0x1ef2), (0x1ef5, 0x1ef4), (0x1ef7, 0x1ef6), (0x1ef9, 0x1ef8), (0x1f00, 0x1f08), (0x1f01, 0x1f09),
  (0x1f02, 0x1f0a), (0x1f03, 0x1f0b), (0x1f04, 0x1f0c), (0x1f05, 0x1f0d), (0x1f06, 0x1f0e), (0x1f07, 0x1f0f), (0x1f10, 0x1f18), (0x1f11, 0x1f19),
  (0x1f12, 0x1f1a), (0x1f13, 0x1f1b), (0x1f14, 0x1f1c), (0x1f15, 0x1f1d), (0x1f20, 0x1f28), (0x1f21, 0x1f29), (0x1f22, 0x1f2a), (0x1f23, 0x1f2b),
  (0x1f24, 0x1f2c), (0x1f25, 0x1f2d), (0x1f26, 0x1f2e), (0x1f27, 0x1f2f), (0x1f30, 0x1f38), (0x1f31, 0x1f39), (0x1f32, 0x1f3a), (0x1f33, 0x1f3b),
  (0x1f34, 0x1f3c), (0x1f35, 0x1f3d), (0x1f36, 0x1f3e), (0x1f37, 0x1f3f), (0x1f40, 0x1f48), (0x1f41, 0x1f49), (0x1f42, 0x1f4a), (0x1f43, 0x1f4b),
  (0x1f44, 0x1f4c), (0x1f45, 0x1f4d), (0x1f51, 0x1f59), (0x1f53, 0x1f5b), (0x1f55, 0x1f5d), (0x1f57, 0x1f5f), (0x1f60, 0x1f68), (0x1f61, 0x1f69),
  (0x1f62, 0x1f6a), (0x1f63, 0x1f6b), (0x1f64, 0x1f6c), (0x1f65, 0x1f6d), (0x1f66, 0x1f6e), (0x1f67, 0x1f6f), (0x1f70, 0x1fba), (0x1f71, 0x1fbb),
  (0x1f72, 0x1fc8), (0x1f73, 0x1fc9), (0x1f74, 0x1fca), (0x1f75, 0x1fcb), (0x1f76, 0x1fda), (0x1f77, 0x1fdb), (0x1f78, 0x1ff8), (0x1f79, 0x1ff9),
  (0x1f7a, 0x1fea), (0x1f7b, 0x1feb), (0x1f7c, 0x1ffa), (0x1f7d, 0x1ffb), (0x1f80, 0x1f88), (0x1f81, 0x1f89), (0x1f82, 0x1f8a), (0x1f83, 0x1f8b),
  (0x1f84, 0x1f8c), (0x1f85, 0x1f8d), (0x1f86, 0x1f8e), (0x1f87, 0x1f8f), (0x1f90, 0x1f98), (0x1f91, 0x1f99), (0x1f92, 0x1f9a), (0x1f93, 0x1f9b),
  (0x1f94, 0x1f9c), (0x1f95, 0x1f9d), (0x1f96, 0x1f9e), (0x1f97, 0x1f9f), (0x1fa0, 0x1fa8), (0x1fa1, 0x1fa9), (0x1fa2, 0x1faa), (0x1fa3, 0x1fab),
  (0x1fa4, 0x1fac), (0x1fa5, 0x1fad), (0x1fa6, 0x1fae), (0x1fa7, 0x1faf), (0x1fb0, 0x1fb8), (0x1fb1, 0x1fb9), (0x1fb3, 0x1fbc), (0x1fc3, 0x1fcc),
  (0x1fd0, 0x1fd8), (0x1fd1, 0x1fd9), (0x1fe0, 0x1fe8), (0x1fe1, 0x1fe9), (0x1fe5, 0x1fec), (0x1ff3, 0x1ffc), (0x2170, 0x2160), (0x2171, 0x2161),
  (0x2172, 0x2162), (0x2173, 0x2163), (0x2174, 0x2164), (0x2175, 0x2165), (0x2176, 0x2166), (0x2177, 0x2167), (0x2178, 0x2168), (0x2179, 0x2169),
  (0x217a, 0x216a), (0x217b, 0x216b), (0x217c, 0x216c), (0x217d, 0x216d), (0x217e, 0x216e), (0x217f, 0x216f), (0x24d0, 0x24b6), (0x24d1, 0x24b7),
  (0x24d2, 0x24b8), (0x24d3, 0x24b9), (0x24d4, 0x24ba), (0x24d5, 0x24bb), (0x24d6, 0x24bc), (0x24d7, 0x24bd), (0x24d8, 0x24be), (0x24d9, 0x24bf),
  (0x24da, 0x24c0), (0x24db, 0x24c1), (0x24dc, 0x24c2), (0x24dd, 0x24c3), (0x24de, 0x24c4), (0x24df, 0x24c5), (0x24e0, 0x24c6), (0x24e1, 0x24c7),
  (0x24e2, 0x24c8), (0x24e3, 0x24c9), (0x24e4, 0x24ca), (0x24e5, 0x24cb), (0x24e6, 0x24cc), (0x24e7, 0x24cd), (0x24e8, 0x24ce), (0x24e9, 0x24cf),
  (0xff41, 0xff21), (0xff42, 0xff22), (0xff43, 0xff23), (0xff44, 0xff24), (0xff45, 0xff25), (0xff46, 0xff26), (0xff47, 0xff27), (0xff48, 0xff28),
  (0xff49, 0xff29), (0xff4a, 0xff2a), (0xff4b, 0xff2b), (0xff4c, 0xff2c), (0xff4d, 0xff2d), (0xff4e, 0xff2e), (0xff4f, 0xff2f), (0xff50, 0xff30),
  (0xff51, 0xff31), (0xff52, 0xff32), (0xff53, 0xff33), (0xff54, 0xff34), (0xff55, 0xff35), (0xff56, 0xff36), (0xff57, 0xff37), (0xff58, 0xff38),
  (0xff59, 0xff39), (0xff5a, 0xff3a) ]

/-- Loop of `Utf8Tools::toUpper(wchar_t ch)`: binary search over
`upperTable_` with `int32_t` cursors `bottom`/`top` (`top` may go to `-1`,
hence `Int`).  The interval width strictly shrinks every iteration, so the
wrapper fuel of 720 (more than the 706 initial width) always dominates the
iteration count; on (unreachable) fuel exhaustion the search misses. -/
def toUpperGo (ch : Int) : Nat → Int → Int → Int
  | 0, _, _ => ch
  | fuel + 1, bottom, top =>
    if bottom ≤ top then
      if ch = (upperTable.getD ((bottom + top) / 2).toNat (0, 0)).1 then
        (upperTable.getD ((bottom + top) / 2).toNat (0, 0)).2
      else if ch > (upperTable.getD ((bottom + top) / 2).toNat (0, 0)).1 then
        toUpperGo ch fuel ((bottom + top) / 2 + 1) top
      else
        toUpperGo ch fuel bottom ((bottom + top) / 2 - 1)
    else ch

/-- Model of `Utf8Tools::toUpper(wchar_t ch)` (`Utf8MaxChars = 706`). -/
def toUpper (ch : Int) : Int :=
  toUpperGo ch 720 0 (706 - 1)

/-! ## Theorems -/

/-- C9: decoding the 3-byte UTF-8 sequence `0xE2 0x82 0xAC` yields the code
point U+20AC (the euro sign) and consumes exactly 3 bytes. -/
theorem decode_euro_sign : multiByteToWideChar [0xE2, 0x82, 0xAC] = some (0x20AC, 3) := by
  decide

/-- C1 (failing-input evaluation): on the string `"abc"` (bytes 97 98 99),
`erase (0, 1)` succeeds and leaves length 2, but the buffer byte at position
`length` is 99 (`'c'`), not the zero terminator the claimed invariant
requires — `erase` shifts bytes left without re-terminating. -/
theorem erase_drops_terminator :
    (erase (assign emptyString [97, 98, 99]) 0 1).1 = true ∧
    (erase (assign emptyString [97, 98, 99]) 0 1).2.length = 2 ∧
    strGet (erase (assign emptyString [97, 98, 99]) 0 1).2.buffer 2 = 99 := by
  decide

/-- C5 (failing-input evaluation): `"ab".rfind ("ab")` returns `InvalidIndex`
although the pattern matches in full at index 0 — the backward scan's lower
bound `i >= pattern.length ()` can never reach a match that starts at an
index below the pattern length. -/
theorem rfind_misses_full_match :
    rfind [97, 98] [97, 98] = InvalidIndex ∧
    matchAt [97, 98] [97, 98] 0 ∧ (0 : Nat) ≠ InvalidIndex := by
  refine ⟨by decide, ?_, by decide⟩
  intro k hk
  simp only [List.length_cons, List.length_nil] at hk
  have hk2 : k = 0 ∨ k = 1 := by omega
  rcases hk2 with h | h <;> subst h <;> decide

theorem upperTable_length : upperTable.length = 706 := by decide

/-- Every run of the binary search either misses (returning its input) or
returns the second component of some table entry whose first component is
the input. -/
theorem toUpperGo_cases (ch : Int) (fuel : Nat) :
    ∀ b t : Int, toUpperGo ch fuel b t = ch ∨
      ∃ m : Nat, m < 706 ∧ upperTable.getD m (0, 0) = (ch, toUpperGo ch fuel b t) := by
  induction fuel with
  | zero => exact fun b t => Or.inl rfl
  | succ fuel ih =>
    intro b t
    rw [toUpperGo]
    split
    · split
      · rename_i hhit
        by_cases hm : ((b + t) / 2).toNat < 706
        · exact Or.inr ⟨((b + t) / 2).toNat, hm, Prod.ext hhit.symm rfl⟩
        · have hdef : upperTable.getD ((b + t) / 2).toNat (0, 0) = (0, 0) :=
            List.getD_eq_default _ _ (by rw [upperTable_length]; omega)
          rw [hdef] at hhit ⊢
          exact Or.inl hhit.symm
      · split
        · exact ih _ _
        · exact ih _ _
    · exact Or.inl rfl

theorem upperTable_snd_fixed : ∀ p ∈ upperTable, toUpper p.2 = p.2 := by
  have h : upperTable.all (fun p => toUpper p.2 == p.2) = true := by decide
  intro p hp
  simpa using List.all_eq_true.mp h p hp

/-- C8: the code-point case mapping is idempotent: for every code point `c`,
`toUpper (toUpper c) = toUpper c` — a hit returns a table image, and no table
image is itself remapped; a miss returns the input unchanged. -/
theorem toUpper_idempotent (c : Int) : toUpper (toUpper c) = toUpper c := by
  rcases toUpperGo_cases c 720 0 (706 - 1) with h | ⟨m, hm, hpair⟩
  · have hc : toUpper c = c := h
    rw [hc]
    exact hc
  · have h2 : toUpper c = (upperTable.getD m (0, 0)).2 := by rw [hpair]; rfl
    have hmem : upperTable.getD m (0, 0) ∈ upperTable := by
      rw [List.getD_eq_getElem _ _ (by rw [upperTable_length]; exact hm)]
      exact List.getElem_mem _
    rw [h2]
    exact upperTable_snd_fixed _ hmem

theorem growLoopGo_ge (needed : Nat) : ∀ fuel c : Nat, c ≤ growLoopGo needed fuel c := by
  intro fuel
  induction fuel with
  | zero => intro c; exact Nat.le_refl c
  | succ fuel ih =>
    intro c
    rw [growLoopGo]
    split
    · exact Nat.le_trans (Nat.le_add_right c _) (ih _)
    · exact Nat.le_refl c

theorem getGrowFactor_gt (s : CrStr) (a : Nat) : a < getGrowFactor s a := by
  simp only [getGrowFactor]
  split
  · have hgrow := growLoopGo_ge (s.length + a) (s.length + a + 1) s.capacity
    rename_i h
    split <;> omega
  · have hgrow := growLoopGo_ge (s.length + a) (s.length + a + 1) (max 12 (a + 1))
    have hmax : 12 ≤ max 12 (a + 1) := Nat.le_max_left _ _
    split <;> omega

theorem getGrowFactor_ge_capacity (s : CrStr) (a : Nat) : s.capacity ≤ getGrowFactor s a := by
  simp only [getGrowFactor]
  split
  · have hgrow := growLoopGo_ge (s.length + a) (s.length + a + 1) s.capacity
    split <;> omega
  · rename_i h
    push_neg at h
    split <;> omega

theorem resize_length (s : CrStr) (a : Nat) : (resize s a).length = s.length := by
  simp only [resize]
  split
  · rfl
  · split <;> rfl

theorem resize_capacity_ge (s : CrStr) (a : Nat) : s.capacity ≤ (resize s a).capacity := by
  have h1 := getGrowFactor_ge_capacity s a
  simp only [resize]
  split
  · exact Nat.le_refl _
  · split <;> · simp only; omega

theorem resize_lt_capacity (s : CrStr) (a : Nat) : s.length + a < (resize s a).capacity := by
  have h1 := getGrowFactor_gt s a
  simp only [resize]
  split
  · assumption
  · split <;> · simp only; omega

theorem append_length (s : CrStr) (bytes : List Nat) :
    (append s bytes).length = s.length + bytes.length := by
  simp only [append, resize_length]

theorem append_capacity_ge (s : CrStr) (bytes : List Nat) :
    s.capacity ≤ (append s bytes).capacity := by
  simp only [append]
  exact resize_capacity_ge s bytes.length

theorem append_capacity_gt_length (s : CrStr) (bytes : List Nat) :
    (append s bytes).length < (append s bytes).capacity := by
  have h := resize_lt_capacity s bytes.length
  simp only [append, resize_length]
  omega

/-- C2: a single `append` never decreases the capacity and always leaves
`capacity > length`; consequently the capacity is monotonically
non-decreasing across any sequence of appends. -/
theorem append_growth :
    (∀ (s : CrStr) (bytes : List Nat),
      s.capacity ≤ (append s bytes).capacity ∧
      (append s bytes).length < (append s bytes).capacity) ∧
    (∀ (s : CrStr) (l : List (List Nat)), s.capacity ≤ (l.foldl append s).capacity) := by
  constructor
  · exact fun s bytes => ⟨append_capacity_ge s bytes, append_capacity_gt_length s bytes⟩
  · intro s l
    induction l generalizing s with
    | nil => exact Nat.le_refl _
    | cons b rest ih =>
      exact Nat.le_trans (append_capacity_ge s b) (ih (append s b))

theorem findLoopGo_bounds (s pattern : List Nat) :
    ∀ rem i : Nat, findLoopGo s pattern i rem ≠ InvalidIndex →
      i ≤ findLoopGo s pattern i rem ∧ findLoopGo s pattern i rem < i + rem := by
  intro rem
  induction rem with
  | zero =>
    intro i h
    rw [findLoopGo] at h
    exact absurd rfl h
  | succ rem ih =>
    intro i h
    by_cases hc : strGet pattern (findInner s pattern i) = 0
    · rw [findLoopGo, if_pos hc]
      exact ⟨Nat.le_refl _, by omega⟩
    · rw [findLoopGo, if_neg hc] at h ⊢
      obtain ⟨h1, h2⟩ := ih (i + 1) h
      exact ⟨by omega, by omega⟩

theorem find_bounds (s pattern : List Nat) (start : Nat)
    (h : find s pattern start ≠ InvalidIndex) :
    start ≤ find s pattern start ∧ find s pattern start + pattern.length ≤ s.length := by
  by_cases hg : pattern.length > s.length ∨ start > s.length
  · rw [find, if_pos hg] at h
    exact absurd rfl h
  · rw [find, if_neg hg] at h ⊢
    push_neg at hg
    obtain ⟨h1, h2⟩ := findLoopGo_bounds s pattern _ start h
    exact ⟨h1, by omega⟩

theorem erase_true_of_le (s : CrStr) (index count : Nat) (h : index + count ≤ s.length) :
    (erase s index count).1 = true ∧ (erase s index count).2.length = s.length - count ∧
    (erase s index count).2.capacity = s.capacity := by
  rw [erase, if_neg (by omega)]
  exact ⟨rfl, rfl, rfl⟩

theorem insert_length (s : CrStr) (index : Nat) (str : List Nat) (h : str ≠ []) :
    (insert s index str).2.length = s.length + str.length := by
  rw [insert, if_neg h]
  by_cases hi : index ≥ s.length
  · rw [if_pos hi]
    exact append_length s str
  · rw [if_neg hi]
    simp only [resize_length]

theorem contentOf_length_le (s : CrStr) : (contentOf s).length ≤ s.length := by
  simp only [contentOf, List.length_take]
  omega

theorem replaceGo_isSome (needle target : List Nat) (hn : needle ≠ []) (ht : target ≠ []) :
    ∀ (fuel : Nat) (s : CrStr) (pos replaced : Nat), s.length - pos < fuel →
      (replaceGo needle target s pos replaced fuel).isSome := by
  intro fuel
  induction fuel with
  | zero => intro s pos replaced h; omega
  | succ fuel ih =>
    intro s pos replaced hfuel
    rw [replaceGo]
    by_cases hpos : pos < s.length
    · rw [if_pos hpos]
      by_cases hfind : find (contentOf s) needle pos = InvalidIndex
      · rw [if_pos hfind]; rfl
      · rw [if_neg hfind]
        obtain ⟨hb1, hb2⟩ := find_bounds (contentOf s) needle pos hfind
        have hclen := contentOf_length_le s
        have hn1 : 1 ≤ needle.length := List.length_pos.mpr hn
        obtain ⟨he1, he2, he3⟩ := erase_true_of_le s (find (contentOf s) needle pos)
          needle.length (by omega)
        have hins := insert_length (erase s (find (contentOf s) needle pos) needle.length).2
          (find (contentOf s) needle pos) target ht
        apply ih
        rw [hins, he2]
        omega
    · rw [if_neg hpos]; rfl

/-- C6: `replace` always terminates when both operands are non-empty — each
iteration advances the scan position past the just-inserted text, so the fuel
`length + 1` provably suffices; and on `"banana"`, `replace ("ana", "X")`
performs exactly one replacement, yielding `"bXna"` (no re-match inside the
inserted text). -/
theorem replace_terminates :
    (∀ (s : CrStr) (needle target : List Nat), needle ≠ [] → target ≠ [] →
      (replace s needle target).isSome) ∧
    (replace (assign emptyString [98, 97, 110, 97, 110, 97]) [97, 110, 97] [88]).map
      (fun r => (r.1, contentOf r.2)) = some (1, [98, 88, 110, 97]) := by
  constructor
  · intro s needle target hn ht
    rw [replace, if_neg (by simp [hn, ht])]
    exact replaceGo_isSome needle target hn ht (s.length + 1) s 0 0 (by omega)
  · decide

/-- Witness for C6: the hypotheses hold and the conclusion evaluates on a
concrete string. -/
theorem replace_terminates_witness :
    ([97] : List Nat) ≠ [] ∧ ([98] : List Nat) ≠ [] ∧
    (replace (assign emptyString [97]) [97] [98]).isSome := by
  refine ⟨by decide, by decide, ?_⟩
  exact replace_terminates.1 (assign emptyString [97]) [97] [98] (by decide) (by decide)

theorem findInnerGo_le (s pattern : List Nat) (i : Nat) :
    ∀ rem index : Nat, findInnerGo s pattern i index rem ≤ index + rem := by
  intro rem
  induction rem with
  | zero => intro index; rw [findInnerGo]; omega
  | succ rem ih =>
    intro index
    rw [findInnerGo]
    split
    · split
      · omega
      · have := ih (index + 1)
        omega
    · omega

theorem findInnerGo_full_iff (s pattern : List Nat) (i : Nat)
    (hs : ∀ m, m < pattern.length → strGet s m ≠ 0) :
    ∀ rem index : Nat, index + rem = pattern.length →
      (findInnerGo s pattern i index rem = pattern.length ↔
        ∀ k, index ≤ k → k < pattern.length → strGet s (i + k) = strGet pattern k) := by
  intro rem
  induction rem with
  | zero =>
    intro index hidx
    constructor
    · intro _ k hk1 hk2
      exact absurd hk2 (by omega)
    · intro _
      rw [findInnerGo]
      omega
  | succ rem ih =>
    intro index hidx
    have hlt : index < pattern.length := by omega
    have hnz := hs index hlt
    rw [findInnerGo, if_pos hnz]
    by_cases hcmp : strGet s (i + index) ≠ strGet pattern index
    · rw [if_pos hcmp]
      constructor
      · intro habs
        exact absurd habs (by omega)
      · intro hall
        exact absurd (hall index (Nat.le_refl _) hlt) hcmp
    · rw [if_neg hcmp]
      push_neg at hcmp
      rw [ih (index + 1) (by omega)]
      constructor
      · intro hall k hk1 hk2
        rcases Nat.eq_or_lt_of_le hk1 with he | hl
        · rw [← he]
          exact hcmp
        · exact hall k (by omega) hk2
      · intro hall k hk1 hk2
        exact hall k (by omega) hk2

/-- With a zero-free haystack prefix and a zero-free pattern, the source's
match test `!pattern[index]` after the inner loop is equivalent to a full
naive match at position `i`. -/
theorem findInner_zero_iff (s pattern : List Nat) (i : Nat)
    (hs : ∀ m, m < pattern.length → strGet s m ≠ 0) (hp : 0 ∉ pattern) :
    (strGet pattern (findInner s pattern i) = 0 ↔ matchAt s pattern i) := by
  have hle : findInner s pattern i ≤ pattern.length := by
    have := findInnerGo_le s pattern i pattern.length 0
    simpa [findInner] using this
  have hiff := findInnerGo_full_iff s pattern i hs pattern.length 0 (by omega)
  constructor
  · intro h0
    have heq : findInner s pattern i = pattern.length := by
      by_contra hne
      have hlt : findInner s pattern i < pattern.length := Nat.lt_of_le_of_ne hle hne
      have hmem : strGet pattern (findInner s pattern i) ∈ pattern := by
        rw [strGet, List.getD_eq_getElem _ _ hlt]
        exact List.getElem_mem _
      rw [h0] at hmem
      exact hp hmem
    rw [findInner] at heq
    intro k hk
    exact hiff.mp heq k (Nat.zero_le _) hk
  · intro hm
    have heq : findInnerGo s pattern i 0 pattern.length = pattern.length :=
      hiff.mpr fun k _ hk2 => hm k hk2
    rw [findInner, heq, strGet, List.getD_eq_default]
    exact Nat.le_refl _

theorem findLoopGo_spec (s pattern : List Nat) (hs : 0 ∉ s) (hp : 0 ∉ pattern)
    (hlp : pattern.length ≤ s.length) (hII : s.length < InvalidIndex) :
    ∀ rem i : Nat, i + rem = s.length - pattern.length + 1 →
      (findLoopGo s pattern i rem = InvalidIndex →
        ∀ j, i ≤ j → j + pattern.length ≤ s.length → ¬ matchAt s pattern j) ∧
      (findLoopGo s pattern i rem ≠ InvalidIndex →
        i ≤ findLoopGo s pattern i rem ∧
        matchAt s pattern (findLoopGo s pattern i rem) ∧
        ∀ j, i ≤ j → j < findLoopGo s pattern i rem → ¬ matchAt s pattern j) := by
  have hsget : ∀ m, m < pattern.length → strGet s m ≠ 0 := by
    intro m hm
    have hml : m < s.length := by omega
    rw [strGet, List.getD_eq_getElem _ _ hml]
    intro h0
    rw [← h0] at hs
    exact hs (List.getElem_mem _)
  intro rem
  induction rem with
  | zero =>
    intro i hi
    constructor
    · intro _ j hj1 hj2 _
      omega
    · intro h
      rw [findLoopGo] at h
      exact absurd rfl h
  | succ rem ih =>
    intro i hi
    have hmi := findInner_zero_iff s pattern i hsget hp
    by_cases hc : strGet pattern (findInner s pattern i) = 0
    · have hres : findLoopGo s pattern i (rem + 1) = i := by rw [findLoopGo, if_pos hc]
      constructor
      · intro hbad
        rw [hres] at hbad
        omega
      · intro _
        rw [hres]
        refine ⟨Nat.le_refl _, hmi.mp hc, ?_⟩
        intro j hj1 hj2 _
        omega
    · have hres : findLoopGo s pattern i (rem + 1) = findLoopGo s pattern (i + 1) rem := by
        rw [findLoopGo, if_neg hc]
      have hnomatch : ¬ matchAt s pattern i := fun hm => hc (hmi.mpr hm)
      obtain ⟨ihA, ihB⟩ := ih (i + 1) (by omega)
      constructor
      · intro hinv j hj1 hj2
        rw [hres] at hinv
        rcases Nat.eq_or_lt_of_le hj1 with he | hl
        · rw [← he]
          exact hnomatch
        · exact ihA hinv j (by omega) hj2
      · intro hninv
        rw [hres] at hninv ⊢
        obtain ⟨b1, b2, b3⟩ := ihB hninv
        refine ⟨by omega, b2, ?_⟩
        intro j hj1 hj2
        rcases Nat.eq_or_lt_of_le hj1 with he | hl
        · rw [← he]
          exact hnomatch
        · exact b3 j (by omega) hj2

/-- If `find` reports no occurrence (on zero-free operands), there is no full
match at or after `start`. -/
theorem find_invalid_spec (s pattern : List Nat) (start : Nat) (hs : 0 ∉ s)
    (hp : 0 ∉ pattern) (hII : s.length < InvalidIndex)
    (h : find s pattern start = InvalidIndex) :
    ∀ j, start ≤ j → j + pattern.length ≤ s.length → ¬ matchAt s pattern j := by
  by_cases hg : pattern.length > s.length ∨ start > s.length
  · rcases hg with hg | hg <;> (intro j hj1 hj2 _; omega)
  · push_neg at hg
    rw [find, if_neg (by push_neg; exact hg)] at h
    by_cases hr : start ≤ s.length - pattern.length
    · intro j hj1 hj2
      exact (findLoopGo_spec s pattern hs hp hg.1 hII
        (s.length - pattern.length + 1 - start) start (by omega)).1 h j hj1 hj2
    · intro j hj1 hj2 _
      omega

/-- If `find` reports an occurrence (on zero-free operands), it is the first
full match at or after `start`. -/
theorem find_found_spec (s pattern : List Nat) (start : Nat) (hs : 0 ∉ s)
    (hp : 0 ∉ pattern) (hII : s.length < InvalidIndex)
    (h : find s pattern start ≠ InvalidIndex) :
    start ≤ find s pattern start ∧
    find s pattern start + pattern.length ≤ s.length ∧
    matchAt s pattern (find s pattern start) ∧
    ∀ j, start ≤ j → j < find s pattern start → ¬ matchAt s pattern j := by
  obtain ⟨hb1, hb2⟩ := find_bounds s pattern start h
  by_cases hg : pattern.length > s.length ∨ start > s.length
  · rw [find, if_pos hg] at h
    exact absurd rfl h
  · push_neg at hg
    rw [find, if_neg (by push_neg; exact hg)] at h ⊢
    by_cases hr : start ≤ s.length - pattern.length
    · obtain ⟨c1, c2, c3⟩ := (findLoopGo_spec s pattern hs hp hg.1 hII
        (s.length - pattern.length + 1 - start) start (by omega)).2 h
      rw [find, if_neg (by push_neg; exact hg)] at hb2
      exact ⟨c1, hb2, c2, c3⟩
    · have hz : s.length - pattern.length + 1 - start = 0 := by omega
      rw [hz, findLoopGo] at h
      exact absurd rfl h

theorem matchAt_single_iff (s : List Nat) (c : Nat) (j : Nat) :
    matchAt s [c] j ↔ strGet s j = c := by
  constructor
  · intro h
    have := h 0 (by norm_num)
    simpa [strGet] using this
  · intro h k hk
    have hk0 : k = 0 := by simpa using hk
    subst hk0
    simpa [strGet] using h

theorem substr_rest (s : List Nat) (prev : Nat) (hprev : prev ≤ s.length)
    (hII : s.length < InvalidIndex) :
    substr s prev (InvalidIndex - prev) = s.drop prev := by
  simp only [substr]
  rw [Nat.min_eq_left hprev]
  by_cases h0 : prev = 0
  · subst h0
    rw [Nat.sub_zero, if_pos rfl]
    have hm : min s.length (s.length - 0) = s.length := by omega
    rw [hm]
    exact List.take_of_length_le (by simp)
  · rw [if_neg (by omega)]
    have hm : min (InvalidIndex - prev) (s.length - prev) = s.length - prev := by omega
    rw [hm]
    exact List.take_of_length_le (by simp)

theorem substr_token (s : List Nat) (prev p : Nat) (hprev : prev ≤ p) (hp : p ≤ s.length)
    (hII : s.length < InvalidIndex) :
    substr s prev (p - prev) = (s.drop prev).take (p - prev) := by
  have hple : prev ≤ s.length := by omega
  have hne : p - prev ≠ InvalidIndex := by omega
  simp only [substr]
  rw [Nat.min_eq_left hple, if_neg hne]
  congr 1
  omega

theorem mem_drop_strGet (s : List Nat) (pos x : Nat) (hx : x ∈ s.drop pos) :
    ∃ j, pos ≤ j ∧ j < s.length ∧ strGet s j = x := by
  obtain ⟨k, hk, hkx⟩ := List.mem_iff_getElem.mp hx
  have hkl : k < s.length - pos := by simpa using hk
  refine ⟨pos + k, by omega, by omega, ?_⟩
  rw [List.getElem_drop] at hkx
  rw [strGet, List.getD_eq_getElem _ _ (by omega)]
  exact hkx

theorem mem_take_drop_strGet (s : List Nat) (pos m x : Nat)
    (hx : x ∈ (s.drop pos).take m) :
    ∃ j, pos ≤ j ∧ j < s.length ∧ j < pos + m ∧ strGet s j = x := by
  obtain ⟨k, hk, hkx⟩ := List.mem_iff_getElem.mp hx
  have hkl : k < m ∧ k < s.length - pos := by
    simp only [List.length_take, List.length_drop] at hk
    omega
  refine ⟨pos + k, by omega, by omega, by omega, ?_⟩
  rw [List.getElem_take, List.getElem_drop] at hkx
  rw [strGet, List.getD_eq_getElem _ _ (by omega)]
  exact hkx

theorem splitOn_single_of_no_occ (l : List Nat) (c : Nat) (h : ∀ x ∈ l, x ≠ c) :
    l.splitOn c = [l] := by
  simp only [List.splitOn]
  exact List.splitOnP_eq_single _ _ (by intro x hx; simpa using h x hx)

theorem splitOn_first_token (l₁ l₂ : List Nat) (c : Nat) (h : ∀ x ∈ l₁, x ≠ c) :
    (l₁ ++ c :: l₂).splitOn c = l₁ :: l₂.splitOn c := by
  simp only [List.splitOn]
  exact List.splitOnP_first _ _ (by intro x hx; simpa using h x hx) c (by simp) l₂

/-- The loop of `split`, on a single-character delimiter `c` and a NUL-free
string, computes exactly the delimiter-separated segments of the unscanned
remainder of the string (in the standard `List.splitOn` sense). -/
theorem splitGo_eq_splitOn (s : List Nat) (c : Nat) (hs : 0 ∉ s) (hc : c ≠ 0)
    (hII : s.length < InvalidIndex) :
    ∀ fuel pos : Nat, pos ≤ s.length → s.length - pos < fuel →
      splitGo s [c] pos pos fuel = (s.drop pos).splitOn c := by
  have hp1 : (0 : Nat) ∉ [c] := fun h => hc (List.mem_singleton.mp h).symm
  intro fuel
  induction fuel with
  | zero => intro pos h1 h2; omega
  | succ fuel ih =>
    intro pos hpos hfuel
    rw [splitGo]
    by_cases hf : find s [c] pos = InvalidIndex
    · rw [if_pos hf]
      have hspec := find_invalid_spec s [c] pos hs hp1 hII hf
      have hno : ∀ x ∈ s.drop pos, x ≠ c := by
        intro x hx heq
        obtain ⟨j, hj1, hj2, hj3⟩ := mem_drop_strGet s pos x hx
        exact hspec j hj1 (by simpa using hj2)
          ((matchAt_single_iff s c j).mpr (by rw [hj3, heq]))
      rw [substr_rest s pos hpos hII, splitOn_single_of_no_occ _ _ hno]
    · rw [if_neg hf]
      obtain ⟨c1, c2, c3, c4⟩ := find_found_spec s [c] pos hs hp1 hII hf
      have hc2 : find s [c] pos + 1 ≤ s.length := by simpa using c2
      have hsp : strGet s (find s [c] pos) = c := (matchAt_single_iff s c _).mp c3
      have hplt : find s [c] pos < s.length := by omega
      have hdecomp : s.drop pos =
          (s.drop pos).take (find s [c] pos - pos) ++ c :: s.drop (find s [c] pos + 1) := by
        conv_lhs => rw [← List.take_append_drop (find s [c] pos - pos) (s.drop pos)]
        congr 1
        rw [List.drop_drop, Nat.add_sub_cancel' c1, List.drop_eq_getElem_cons hplt]
        congr 1
        rw [strGet, List.getD_eq_getElem _ _ hplt] at hsp
        exact hsp
      have hnotok : ∀ x ∈ (s.drop pos).take (find s [c] pos - pos), x ≠ c := by
        intro x hx heq
        obtain ⟨j, hj1, hj2, hj3, hj4⟩ := mem_take_drop_strGet s pos _ x hx
        exact c4 j hj1 (by omega) ((matchAt_single_iff s c j).mpr (by rw [hj4, heq]))
      rw [substr_token s pos (find s [c] pos) c1 (by omega) hII]
      rw [ih (find s [c] pos + 1) (by omega) (by omega)]
      conv_rhs => rw [hdecomp]
      rw [splitOn_first_token _ _ _ hnotok]

theorem matchAt_isInfix (s pattern : List Nat) (j : Nat) (hm : matchAt s pattern j)
    (hj : j + pattern.length ≤ s.length) : pattern <:+: s := by
  have hpat : pattern = (s.drop j).take pattern.length := by
    apply List.ext_getElem
    · simp only [List.length_take, List.length_drop]
      omega
    · intro n h1 h2
      rw [List.getElem_take, List.getElem_drop]
      have := hm n h1
      rw [strGet, strGet, List.getD_eq_getElem _ _ (by omega),
        List.getD_eq_getElem _ _ h1] at this
      exact this.symm
  obtain ⟨n, hn⟩ : ∃ n, pattern.length = n := ⟨_, rfl⟩
  have hpat2 : pattern = (s.drop j).take n := by rw [← hn]; exact hpat
  refine ⟨s.take j, (s.drop j).drop n, ?_⟩
  rw [hpat2, List.append_assoc, List.take_append_drop, List.take_append_drop]

theorem split_absent_single (s d : List Nat) (hs : 0 ∉ s) (hd : 0 ∉ d)
    (hII : s.length < InvalidIndex) (habs : ¬ d <:+: s) : split s d = [s] := by
  have hf : find s d 0 = InvalidIndex := by
    by_contra hne
    obtain ⟨c1, c2, c3, c4⟩ := find_found_spec s d 0 hs hd hII hne
    exact habs (matchAt_isInfix s d _ c3 c2)
  have h2 : s.length + 2 = s.length + 1 + 1 := rfl
  rw [split, h2, splitGo, if_pos hf, substr_rest s 0 (Nat.zero_le _) hII, List.drop_zero]

/-- C4 (amended): the concrete `"a,b,,c".split (",")` scenario yields the
four segments including the empty one; a delimiter that does not occur in the
string yields the single whole-string segment; and for every
single-character delimiter, `split` yields exactly the delimiter-separated
segments (`List.splitOn`).  (For multi-character delimiters the claim fails;
see the counterexample.) -/
theorem split_segments :
    split [97, 44, 98, 44, 44, 99] [44] = [[97], [98], [], [99]] ∧
    (∀ s d : List Nat, 0 ∉ s → 0 ∉ d → s.length < InvalidIndex → ¬ d <:+: s →
      split s d = [s]) ∧
    (∀ (s : List Nat) (c : Nat), 0 ∉ s → c ≠ 0 → s.length < InvalidIndex →
      split s [c] = s.splitOn c) := by
  refine ⟨by decide, ?_, ?_⟩
  · exact split_absent_single
  · intro s c hs hc hII
    rw [split, splitGo_eq_splitOn s c hs hc hII (s.length + 2) 0 (Nat.zero_le _) (by omega),
      List.drop_zero]

/-- Witness for C4: the hypotheses hold and the conclusions evaluate on
concrete strings. -/
theorem split_segments_witness :
    (0 ∉ ([97] : List Nat)) ∧ ¬ ([44] : List Nat) <:+: [97] ∧
    split [97] [44] = [[97]] ∧ split [97] [44] = List.splitOn 44 [97] :=
  ⟨by decide, by decide,
    split_segments.2.1 [97] [44] (by decide) (by decide) (by decide) (by decide),
    split_segments.2.2 [97] 44 (by decide) (by decide) (by decide)⟩

/-- C4 (counterexample): on `"ab--cd"` with the two-character delimiter
`"--"`, `split` does not yield the delimiter-separated segments
`["ab", "cd"]` — the scan advances only one position past a match, so the
second token still carries one delimiter character. -/
theorem split_multichar_not_segments :
    split [97, 98, 45, 45, 99, 100] [45, 45] ≠ [[97, 98], [99, 100]] := by decide

theorem intercalate_one (d x : List Nat) : d.intercalate [x] = x := by
  simp [List.intercalate]

theorem intercalate_two (d x y : List Nat) (l : List (List Nat)) :
    d.intercalate (x :: y :: l) = x ++ d ++ d.intercalate (y :: l) := by
  simp [List.intercalate, List.append_assoc]

theorem foldl_join_delim (d : List Nat) :
    ∀ (l : List (List Nat)) (a y : List Nat),
      List.foldl (fun result t => result ++ d ++ t) a (y :: l) =
        a ++ d ++ d.intercalate (y :: l) := by
  intro l
  induction l with
  | nil =>
    intro a y
    simp [intercalate_one]
  | cons z l ih =>
    intro a y
    rw [List.foldl_cons, ih (a ++ d ++ y) z, intercalate_two]
    simp [List.append_assoc]

theorem join_eq_intercalate (seq : List (List Nat)) (d : List Nat) (hne : seq ≠ []) :
    join seq d 0 = d.intercalate seq := by
  match seq with
  | [x] => simp [join, intercalate_one]
  | x :: y :: l =>
    rw [join, if_neg (by simp), if_neg (by simp)]
    simp only [List.drop_zero]
    rw [foldl_join_delim d l x y, intercalate_two]

/-- C3 (amended): for every NUL-free string and every single non-NUL
character delimiter, joining `split`'s result with the delimiter
reconstructs the original string exactly.  (For delimiters longer than one
character reconstruction fails; see the counterexample.) -/
theorem split_join_single (s : List Nat) (c : Nat) (hs : 0 ∉ s) (hc : c ≠ 0)
    (hII : s.length < InvalidIndex) :
    join (split s [c]) [c] 0 = s := by
  have hsp : split s [c] = s.splitOn c := by
    rw [split, splitGo_eq_splitOn s c hs hc hII (s.length + 2) 0 (Nat.zero_le _) (by omega),
      List.drop_zero]
  rw [hsp, join_eq_intercalate _ _ (by simp only [List.splitOn]; exact List.splitOnP_ne_nil _ _)]
  exact List.intercalate_splitOn s c

/-- Witness for C3: the hypotheses hold and the conclusion evaluates on a
concrete string. -/
theorem split_join_single_witness :
    (0 ∉ ([97, 98] : List Nat)) ∧ (44 : Nat) ≠ 0 ∧
    ([97, 98] : List Nat).length < InvalidIndex ∧
    join (split [97, 98] [44]) [44] 0 = [97, 98] :=
  ⟨by decide, by decide, by decide,
    split_join_single [97, 98] 44 (by decide) (by decide) (by decide)⟩

/-- C3 (counterexample): with the two-character delimiter `"--"` on
`"ab--cd"`, joining the split parts with the delimiter yields `"ab---cd"`,
not the original string — the claim fails for multi-character delimiters. -/
theorem split_join_multichar_fails :
    join (split [97, 98, 45, 45, 99, 100] [45, 45]) [45, 45] 0 ≠
      [97, 98, 45, 45, 99, 100] := by decide

theorem strGet_set_self (buf : List Nat) (i v : Nat) (h : i < buf.length) :
    strGet (buf.set i v) i = v := by
  rw [strGet, List.getD_eq_getElem?_getD, List.getElem?_set_eq_of_lt v h]
  rfl

theorem strGet_set_ne (buf : List Nat) (i j v : Nat) (h : i ≠ j) :
    strGet (buf.set i v) j = strGet buf j := by
  rw [strGet, strGet, List.getD_eq_getElem?_getD, List.getD_eq_getElem?_getD,
    List.getElem?_set_ne h]

theorem strGet_take (l : List Nat) (m n : Nat) (h : n < m) :
    strGet (l.take m) n = strGet l n := by
  rw [strGet, strGet, List.getD_eq_getElem?_getD, List.getD_eq_getElem?_getD,
    List.getElem?_take, if_pos h]

theorem strGet_drop (l : List Nat) (m n : Nat) : strGet (l.drop m) n = strGet l (m + n) := by
  rw [strGet, strGet, List.getD_eq_getElem?_getD, List.getD_eq_getElem?_getD,
    List.getElem?_drop]

theorem strGet_append_left (l₁ l₂ : List Nat) (n : Nat) (h : n < l₁.length) :
    strGet (l₁ ++ l₂) n = strGet l₁ n := by
  rw [strGet, strGet, List.getD_eq_getElem?_getD, List.getD_eq_getElem?_getD,
    List.getElem?_append_left h]

theorem strGet_append_right (l₁ l₂ : List Nat) (n : Nat) (h : l₁.length ≤ n) :
    strGet (l₁ ++ l₂) n = strGet l₂ (n - l₁.length) := by
  rw [strGet, strGet, List.getD_eq_getElem?_getD, List.getD_eq_getElem?_getD,
    List.getElem?_append_right h]

theorem list_eq_of_strGet (l₁ l₂ : List Nat) (hlen : l₁.length = l₂.length)
    (h : ∀ n, n < l₁.length → strGet l₁ n = strGet l₂ n) : l₁ = l₂ := by
  apply List.ext_getElem hlen
  intro n h1 h2
  have hn := h n h1
  rw [strGet, strGet, List.getD_eq_getElem _ _ h1, List.getD_eq_getElem _ _ h2] at hn
  exact hn

theorem eraseLoopGo_length (count : Nat) :
    ∀ (rem : Nat) (buf : List Nat) (i : Nat),
      (eraseLoopGo count buf i rem).length = buf.length := by
  intro rem
  induction rem with
  | zero => intro buf i; rw [eraseLoopGo]
  | succ rem ih =>
    intro buf i
    rw [eraseLoopGo, ih]
    exact List.length_set buf i _

theorem eraseLoopGo_getD (count : Nat) :
    ∀ (rem : Nat) (buf : List Nat) (i : Nat), i + rem ≤ buf.length →
      ∀ j, strGet (eraseLoopGo count buf i rem) j =
        if i ≤ j ∧ j < i + rem then strGet buf (j + count) else strGet buf j := by
  intro rem
  induction rem with
  | zero =>
    intro buf i h j
    rw [eraseLoopGo, if_neg (by omega)]
  | succ rem ih =>
    intro buf i h j
    rw [eraseLoopGo]
    rw [ih (buf.set i (strGet buf (i + count))) (i + 1)
      (by rw [List.length_set]; omega) j]
    by_cases h1 : i + 1 ≤ j ∧ j < i + 1 + rem
    · rw [if_pos h1, if_pos (show i ≤ j ∧ j < i + (rem + 1) by omega)]
      exact strGet_set_ne _ _ _ _ (by omega)
    · rw [if_neg h1]
      by_cases hj1 : j = i
      · rw [if_pos (show i ≤ j ∧ j < i + (rem + 1) by omega)]
        rw [hj1, strGet_set_self _ _ _ (by omega)]
      · rw [if_neg (show ¬(i ≤ j ∧ j < i + (rem + 1)) by omega)]
        exact strGet_set_ne _ _ _ _ (by omega)

/-- C7: `erase` rejects out-of-range spans with `false` leaving the string
untouched; in range it returns `true`, removes exactly `count` bytes at
`index` by shifting the trailing bytes left, decreases the length by `count`,
and leaves the capacity unchanged (in particular never reduces it). -/
theorem erase_spec (s : CrStr) (index count : Nat) (hinv : s.length ≤ s.buffer.length) :
    (index + count > s.length → erase s index count = (false, s)) ∧
    (index + count ≤ s.length →
      (erase s index count).1 = true ∧
      contentOf (erase s index count).2 =
        (contentOf s).take index ++ (contentOf s).drop (index + count) ∧
      (erase s index count).2.length = s.length - count ∧
      (erase s index count).2.capacity = s.capacity) := by
  constructor
  · intro h
    rw [erase, if_pos h]
  · intro h
    rw [erase, if_neg (by omega)]
    refine ⟨rfl, ?_, rfl, rfl⟩
    simp only [contentOf]
    apply list_eq_of_strGet
    · simp only [List.length_take, List.length_append, List.length_drop, eraseLoopGo_length]
      omega
    · intro n hn
      have hn2 : n < s.length - count := by
        simp only [List.length_take, eraseLoopGo_length] at hn
        omega
      rw [strGet_take _ _ _ hn2]
      rw [eraseLoopGo_getD count _ s.buffer index (by omega) n]
      have hcond : (index ≤ n ∧ n < index + (s.length - count - index)) ↔ index ≤ n := by
        omega
      by_cases hcase : index ≤ n
      · rw [if_pos (hcond.mpr hcase)]
        rw [strGet_append_right _ _ _ (by simp only [List.length_take]; omega)]
        rw [show (List.take index (List.take s.length s.buffer)).length = index by
          simp only [List.length_take]; omega]
        rw [strGet_drop]
        rw [show index + count + (n - index) = n + count by omega]
        rw [strGet_take _ _ _ (by omega)]
      · rw [if_neg (fun hc => hcase (hcond.mp hc))]
        rw [strGet_append_left _ _ _ (by simp only [List.length_take]; omega)]
        rw [strGet_take _ _ _ (by omega)]
        rw [strGet_take _ _ _ (by omega)]

/-- Witness for C7: the hypothesis holds and the in-range conclusions
evaluate on `"abc"`, erase (1, 1). -/
theorem erase_spec_witness :
    (assign emptyString [97, 98, 99]).length ≤ (assign emptyString [97, 98, 99]).buffer.length ∧
    ((erase (assign emptyString [97, 98, 99]) 1 1).1 = true ∧
      contentOf (erase (assign emptyString [97, 98, 99]) 1 1).2 =
        (contentOf (assign emptyString [97, 98, 99])).take 1 ++
          (contentOf (assign emptyString [97, 98, 99])).drop 2 ∧
      (erase (assign emptyString [97, 98, 99]) 1 1).2.length =
        (assign emptyString [97, 98, 99]).length - 1 ∧
      (erase (assign emptyString [97, 98, 99]) 1 1).2.capacity =
        (assign emptyString [97, 98, 99]).capacity) :=
  ⟨by decide, (erase_spec (assign emptyString [97, 98, 99]) 1 1 (by decide)).2 (by decide)⟩

theorem memwrite_length :
    ∀ (bytes buf : List Nat) (start : Nat), (memwrite buf start bytes).length = buf.length := by
  intro bytes
  induction bytes with
  | nil => intro buf start; rw [memwrite]
  | cons b rest ih =>
    intro buf start
    rw [memwrite, ih]
    exact List.length_set buf start b

theorem memwrite_getD :
    ∀ (bytes buf : List Nat) (start : Nat), start + bytes.length ≤ buf.length →
      ∀ j, strGet (memwrite buf start bytes) j =
        if start ≤ j ∧ j < start + bytes.length then strGet bytes (j - start)
        else strGet buf j := by
  intro bytes
  induction bytes with
  | nil =>
    intro buf start h j
    rw [memwrite, if_neg (by simp only [List.length_nil]; omega)]
  | cons b rest ih =>
    intro buf start h j
    rw [memwrite]
    rw [ih (buf.set start b) (start + 1)
      (by rw [List.length_set]; simp only [List.length_cons] at h; omega) j]
    by_cases h1 : start + 1 ≤ j ∧ j < start + 1 + rest.length
    · rw [if_pos h1,
        if_pos (show start ≤ j ∧ j < start + (b :: rest).length by
          simp only [List.length_cons]; omega)]
      rw [show j - start = (j - (start + 1)) + 1 by omega]
      rw [strGet, strGet, List.getD_cons_succ]
    · rw [if_neg h1]
      by_cases hj1 : j = start
      · rw [if_pos (show start ≤ j ∧ j < start + (b :: rest).length by
          simp only [List.length_cons]; omega)]
        rw [hj1, strGet_set_self _ _ _ (by simp only [List.length_cons] at h; omega)]
        rw [Nat.sub_self, strGet, List.getD_cons_zero]
      · rw [if_neg (show ¬(start ≤ j ∧ j < start + (b :: rest).length) by
          simp only [List.length_cons]; omega)]
        exact strGet_set_ne _ _ _ _ (by omega)

theorem assign_empty_content (bytes : List Nat) :
    contentOf (assign emptyString bytes) = bytes ∧
    (assign emptyString bytes).length = bytes.length := by
  constructor
  · have hgt := getGrowFactor_gt emptyString bytes.length
    have hres : resize emptyString bytes.length =
        { buffer := (List.replicate (getGrowFactor emptyString bytes.length + 0) 0).set 0 0
          length := 0
          capacity := getGrowFactor emptyString bytes.length + 0 } := by
      rw [resize, if_neg (by simp [emptyString]), if_neg (by simp [emptyString])]
      rfl
    have hblen : ((List.replicate (getGrowFactor emptyString bytes.length + 0) 0).set 0 0).length
        = getGrowFactor emptyString bytes.length := by
      rw [List.length_set, List.length_replicate]
      omega
    rw [assign, hres]
    simp only [contentOf]
    apply list_eq_of_strGet
    · simp only [List.length_take, List.length_set, memwrite_length]
      rw [List.length_replicate]
      omega
    · intro n hn
      have hn2 : n < bytes.length := by
        simp only [List.length_take] at hn
        omega
      rw [strGet_take _ _ _ hn2]
      rw [strGet_set_ne _ _ _ _ (by omega)]
      rw [memwrite_getD bytes _ 0 (by rw [hblen]; omega) n]
      rw [if_pos (by omega), Nat.sub_zero]
  · rfl

theorem cstrLen_le_of_zero (l : List Nat) :
    ∀ i, i < l.length → strGet l i = 0 → cstrLen l ≤ i := by
  induction l with
  | nil =>
    intro i hi
    simp at hi
  | cons b rest ih =>
    intro i hi h0
    rw [cstrLen]
    by_cases hb : b = 0
    · rw [if_pos hb]
      omega
    · rw [if_neg hb]
      cases i with
      | zero =>
        rw [strGet, List.getD_cons_zero] at h0
        exact absurd h0 hb
      | succ i =>
        have h0r : strGet rest i = 0 := by
          rw [strGet, ← List.getD_cons_succ (x := b)]
          exact h0
        have := ih i (by simpa using hi) h0r
        omega

theorem cstrLen_take (l : List Nat) : ∀ n, cstrLen (l.take n) = min (cstrLen l) n := by
  induction l with
  | nil => intro n; simp [cstrLen]
  | cons b rest ih =>
    intro n
    cases n with
    | zero => simp [cstrLen]
    | succ n =>
      rw [List.take_succ_cons, cstrLen, cstrLen]
      by_cases hb : b = 0
      · rw [if_pos hb, if_pos hb]
        omega
      · rw [if_neg hb, if_neg hb, ih n]
        omega

/-- C10: copying a `String` recomputes the source length with `strlen`, so a
string holding an embedded zero byte before position `length` is truncated
at its first zero byte (and the copy is strictly shorter) — although
`assign` with an explicit length (the `String (str, length)` constructor)
stores embedded zeros faithfully. -/
theorem copy_truncates_at_zero :
    (∀ s : CrStr, s.length ≤ s.buffer.length →
      (∃ i, i < s.length ∧ strGet (contentOf s) i = 0) →
      contentOf (copyString s) = (contentOf s).take (cstrLen (contentOf s)) ∧
      (copyString s).length < s.length) ∧
    (∀ bytes : List Nat, contentOf (assign emptyString bytes) = bytes ∧
      (assign emptyString bytes).length = bytes.length) := by
  refine ⟨?_, assign_empty_content⟩
  intro s hinv hex
  obtain ⟨i, hi, hzero⟩ := hex
  have hclen : (contentOf s).length = s.length := by
    simp only [contentOf, List.length_take]
    omega
  have h1 : cstrLen (contentOf s) ≤ i :=
    cstrLen_le_of_zero (contentOf s) i (by omega) hzero
  have h2 : cstrLen (contentOf s) = min (cstrLen s.buffer) s.length := by
    rw [contentOf, cstrLen_take]
  have h3 : cstrLen s.buffer = cstrLen (contentOf s) := by omega
  obtain ⟨hca, hcl⟩ := assign_empty_content (s.buffer.take (cstrLen s.buffer))
  constructor
  · have key : (contentOf s).take (cstrLen (contentOf s)) =
        s.buffer.take (cstrLen (contentOf s)) := by
      have hk : cstrLen (contentOf s) ≤ s.length := by omega
      calc (contentOf s).take (cstrLen (contentOf s))
          = (s.buffer.take s.length).take (cstrLen (contentOf s)) := rfl
        _ = s.buffer.take (min (cstrLen (contentOf s)) s.length) := List.take_take _ _ _
        _ = s.buffer.take (cstrLen (contentOf s)) := by rw [Nat.min_eq_left hk]
    rw [copyString, hca, h3, key]
  · rw [copyString, hcl]
    have hlt : (s.buffer.take (cstrLen s.buffer)).length = min (cstrLen s.buffer) s.buffer.length :=
      List.length_take _ _
    omega

/-- Witness for C10: the hypotheses hold and the conclusions evaluate on the
concrete string `97 0 98` built with an explicit length. -/
theorem copy_truncates_at_zero_witness :
    ((assign emptyString [97, 0, 98]).length ≤
      (assign emptyString [97, 0, 98]).buffer.length) ∧
    (1 < (assign emptyString [97, 0, 98]).length ∧
      strGet (contentOf (assign emptyString [97, 0, 98])) 1 = 0) ∧
    contentOf (copyString (assign emptyString [97, 0, 98])) =
      (contentOf (assign emptyString [97, 0, 98])).take
        (cstrLen (contentOf (assign emptyString [97, 0, 98]))) ∧
    (copyString (assign emptyString [97, 0, 98])).length <
      (assign emptyString [97, 0, 98]).length := by
  refine ⟨by decide, by decide, ?_, ?_⟩
  · exact (copy_truncates_at_zero.1 (assign emptyString [97, 0, 98]) (by decide)
      ⟨1, by decide, by decide⟩).1
  · exact (copy_truncates_at_zero.1 (assign emptyString [97, 0, 98]) (by decide)
      ⟨1, by decide, by decide⟩).2

end Cr
